import Mathlib

/-!
Shallow embedding of the core pipeline of `scripts/modeling.py` from the
Harris County patrol project: synthetic patrol-point generation,
K-means-based station placement, nearest-station service assignment, and
equity metrics (Gini coefficient and coverage ratio).

Coordinates and areas are rational numbers; the planar distance function
(the geometry library's `Point.distance` on projected coordinates) is an
abstract parameter, as is the K-means clustering routine of scikit-learn:
both are external libraries, not code of this repository.  Distances that
the script represents as the IEEE value `inf` are modelled as `⊤` in
`WithTop ℚ`; the NaN produced by a zero division in the Gini computation is
modelled by `Option.none`.
-/

/-- A planar point (projected coordinates, as after `to_crs(epsg=3857)`). -/
structure Pt where
  x : ℚ
  y : ℚ
deriving DecidableEq

/-- Abstract planar distance function supplied by the geometry library. -/
abbrev DistFn := Pt → Pt → ℚ

/-- A constable precinct: its `PCT_NUM`, its `area_sq_km` attribute, and its
polygon, abstracted to the containment test `geometry.contains` used by the
rejection sampler (shapely containment is strict: boundary points fail). -/
structure Precinct where
  pct_num : ℤ
  area_sq_km : ℚ
  contains : Pt → Bool

/-- A synthetic patrol (demand) point produced by `generate_patrol_points`. -/
structure DemandPoint where
  geometry : Pt
  precinct : ℤ
  patrol_id : String
deriving DecidableEq

/-- Python `int()` applied to a rational: truncation toward zero, i.e.
T-division of the numerator by the denominator. -/
def pyInt (q : ℚ) : ℤ :=
  q.num.tdiv (q.den : ℤ)

/-- Number of points allocated to one precinct in `generate_patrol_points`
(line 95): `max(5, int(num_points * area_proportion))`. -/
def precinctQuota (budget : ℤ) (area total : ℚ) : ℕ :=
  (max 5 (pyInt ((budget : ℚ) * (area / total)))).toNat

/-- The rejection-sampling loop of `generate_patrol_points` (lines 101-111):
candidates drawn from the bounding box are consumed in order; a candidate is
kept only if the precinct polygon contains it, until the quota is met.
`none` models a run that exhausts the supplied randomness (the Python loop
would keep drawing; the spec notes it is unbounded). -/
def samplePoints (P : Precinct) (quota : ℕ) :
    List DemandPoint → List Pt → Option (List DemandPoint)
  | acc, cands =>
    if quota ≤ acc.length then some acc
    else
      match cands with
      | [] => none
      | c :: rest =>
        if P.contains c then
          samplePoints P quota
            (acc ++ [{ geometry := c, precinct := P.pct_num,
                       patrol_id := "P" ++ Int.repr P.pct_num ++ "_" ++
                         Nat.repr (acc.length + 1) }]) rest
        else
          samplePoints P quota acc rest
termination_by acc cands => cands.length

/-- Per-precinct loop of `generate_patrol_points`: every precinct comes with
its own stream of random bounding-box candidates. -/
def generateAux (budget : ℤ) (total : ℚ) :
    List (Precinct × List Pt) → Option (List DemandPoint)
  | [] => some []
  | pc :: rest => do
    let pts ← samplePoints pc.1 (precinctQuota budget pc.1.area_sq_km total) [] pc.2
    let more ← generateAux budget total rest
    pure (pts ++ more)

/-- `generate_patrol_points` (lines 85-118): the quota denominator is the sum
of all precinct areas. -/
def generate_patrol_points (budget : ℤ) (pcs : List (Precinct × List Pt)) :
    Option (List DemandPoint) :=
  generateAux budget ((pcs.map (fun pc => pc.1.area_sq_km)).sum) pcs

/-- A patrol station as produced by `optimize_patrol_stations`. -/
structure Station where
  station_id : String
  precinct : ℤ
  geometry : Pt
  cluster_size : ℕ
deriving DecidableEq

/-- pandas `Series.unique`: first occurrence of each value, in order. -/
def pdUnique : List ℤ → List ℤ
  | [] => []
  | x :: xs => x :: pdUnique (xs.filter (fun y => y ≠ x))
termination_by l => l.length
decreasing_by
  simp only [List.length_cons]
  exact Nat.lt_succ_of_le (List.length_filter_le _ xs)

/-- Body of the per-precinct loop of `optimize_patrol_stations` (lines
128-158).  `kmeans k coords` abstracts scikit-learn K-means (composed with
the standard scaler and its inverse): it returns the cluster centers, in
original coordinates, and the per-point cluster labels. -/
def stationBlock (kmeans : ℕ → List Pt → List Pt × List ℕ)
    (patrol_points : List DemandPoint) (k : ℕ) (p : ℤ) : List Station :=
  let ppts := patrol_points.filter (fun d => d.precinct = p)
  if ppts.length < k then []
  else
    let res := kmeans k (ppts.map (fun d => d.geometry))
    res.1.enum.map (fun ic =>
      { station_id := "S" ++ Int.repr p ++ "_" ++ Nat.repr (ic.1 + 1)
        precinct := p
        geometry := ic.2
        cluster_size := (res.2.filter (fun l => l = ic.1)).length })

/-- `optimize_patrol_stations` (lines 121-163): iterate over the unique
precinct numbers; skip a precinct with fewer points than requested stations;
otherwise emit one station per cluster center. -/
def optimize_patrol_stations (kmeans : ℕ → List Pt → List Pt × List ℕ)
    (patrol_points : List DemandPoint) (pct_nums : List ℤ) (k : ℕ) :
    List Station :=
  (pdUnique pct_nums).flatMap (stationBlock kmeans patrol_points k)

/-- A zip-code zone before the service-coverage analysis. -/
structure Zone where
  zip : String
  area_sq_km : ℚ
  centroid : Pt
deriving DecidableEq

/-- A zone after `analyze_service_coverage` appended its service columns.
`distance_km = ⊤` models the `float('inf')` the script records when there is
no station; `nearest_station`/`precinct` are `none` where Python records
`None`/`NaN`. -/
structure ZoneA where
  zip : String
  area_sq_km : ℚ
  centroid : Pt
  nearest_station : Option String
  distance_km : WithTop ℚ
  precinct : Option ℤ
deriving DecidableEq

/-- The linear minimum scan of `analyze_service_coverage` (lines 191-200):
`min_dist` starts at `inf`, `nearest_station` at `None`, and both are updated
on a strictly smaller distance, so the first station attaining the minimum
wins.  Returns the minimal distance in meters and the winning station id. -/
def nearestStation (dist : DistFn) (stations : List Station) (c : Pt) :
    WithTop ℚ × Option String :=
  stations.foldl
    (fun acc st =>
      if (dist c st.geometry : WithTop ℚ) < acc.1 then
        ((dist c st.geometry : WithTop ℚ), some st.station_id)
      else acc)
    (⊤, none)

/-- Reference version of the scan: the running best station of the strict
minimum fold, used to prove properties of `nearestStation`. -/
def pickNearest (dist : DistFn) (c : Pt) : Station → List Station → Station
  | b, [] => b
  | b, t :: ts =>
    if dist c t.geometry < dist c b.geometry then pickNearest dist c t ts
    else pickNearest dist c b ts

/-- Per-zone body of `analyze_service_coverage` (lines 191-213): record the
nearest station id, the distance converted to kilometers, and the precinct
inherited from the assigned station (`None` maps to a missing precinct). -/
def assignZone (dist : DistFn) (stations : List Station) (z : Zone) : ZoneA :=
  let r := nearestStation dist stations z.centroid
  { zip := z.zip, area_sq_km := z.area_sq_km, centroid := z.centroid
    nearest_station := r.2
    distance_km := WithTop.map (fun d => d / 1000) r.1
    precinct := r.2.bind (fun sid =>
      (stations.reverse.find? (fun st => st.station_id = sid)).map
        (fun st => st.precinct)) }

/-- A station with the aggregated service metrics merged back on. -/
structure StationM where
  station_id : String
  precinct : ℤ
  geometry : Pt
  cluster_size : ℕ
  service_area_sq_km : ℚ
  avg_distance_km : ℚ
  zipcode_count : ℕ
deriving DecidableEq

/-- `analyze_service_coverage` (lines 166-237): assign every zone to its
nearest station, then aggregate zones by assigned station (area sum, mean
distance, zone count) and merge onto the stations, zero-filling stations
that received no zone (the `fillna(0)` lines). -/
def analyze_service_coverage (dist : DistFn) (patrol_stations : List Station)
    (zipcodes : List Zone) : List StationM × List ZoneA :=
  let zonesA := zipcodes.map (assignZone dist patrol_stations)
  let stationsM := patrol_stations.map (fun st =>
    let assigned := zonesA.filter (fun z => z.nearest_station = some st.station_id)
    { station_id := st.station_id, precinct := st.precinct
      geometry := st.geometry, cluster_size := st.cluster_size
      service_area_sq_km := (assigned.map (fun z => z.area_sq_km)).sum
      avg_distance_km :=
        if assigned.length = 0 then 0
        else ((assigned.map (fun z => (z.distance_km).untop' 0)).sum) / assigned.length
      zipcode_count := assigned.length })
  (stationsM, zonesA)

/-- The Gini computation of `calculate_equity_metrics` (lines 256-263): sort
the distances ascending and evaluate the discrete Gini formula.  `none`
models the NaN that numpy produces when the denominator `n * sum` is zero
(no guard exists in the script). -/
def calculate_gini (distances : List ℚ) : Option ℚ :=
  let sorted := List.insertionSort (fun a b : ℚ => a ≤ b) distances
  let n : ℕ := sorted.length
  let num := (sorted.enum.map
    (fun p => (2 * ((p.1 : ℚ) + 1) - (n : ℚ) - 1) * p.2)).sum
  let den := (n : ℚ) * sorted.sum
  if den = 0 then none else some (num / den)

/-- The coverage-ratio computation of `calculate_equity_metrics` (lines
266-268), with the threshold as a parameter (the script fixes it at 10):
summed area of the zones within the threshold over total zone area.  A
`⊤` (infinite) distance fails the `≤` test, as the float comparison does. -/
def coverage_ratio (zipcodes : List ZoneA) (threshold : ℚ) : ℚ :=
  let covered := zipcodes.filter (fun z => z.distance_km ≤ (threshold : WithTop ℚ))
  ((covered.map (fun z => z.area_sq_km)).sum) /
    ((zipcodes.map (fun z => z.area_sq_km)).sum)

/-- The equity-metrics document (lines 271-276).  The per-precinct table
(mean/max/min/sample standard deviation) is not modelled: no verified
property refers to it, and the sample standard deviation is irrational. -/
structure EquityMetrics where
  gini_coefficient : Option ℚ
  coverage_ratio : ℚ
  threshold_distance_km : ℚ
deriving DecidableEq

/-- `calculate_equity_metrics` (lines 240-278): the Gini coefficient over the
finite recorded distances (the script drops NaN entries; infinite distances
arise only when the station list is empty) and the coverage ratio at the
hard-coded 10 km threshold. -/
def calculate_equity_metrics (zipcodes : List ZoneA) : EquityMetrics :=
  let distances := zipcodes.filterMap
    (fun z => WithTop.recTopCoe (none : Option ℚ) (fun q => some q) z.distance_km)
  let threshold_distance : ℚ := 10
  { gini_coefficient := calculate_gini distances
    coverage_ratio := coverage_ratio zipcodes threshold_distance
    threshold_distance_km := threshold_distance }

/-- Reference decimal digit list of a natural number, used to reason about
the station-identifier strings built with decimal formatting. -/
def specDigits (n : ℕ) : List Char :=
  if h : n / 10 = 0 then [Nat.digitChar (n % 10)]
  else specDigits (n / 10) ++ [Nat.digitChar (n % 10)]
termination_by n
decreasing_by
  have hn : n ≠ 0 := by
    intro h0
    rw [h0] at h
    simp at h
  exact Nat.div_lt_self (Nat.pos_of_ne_zero hn) (by norm_num)

/-- Value of a decimal digit list, inverse to `specDigits`. -/
def valDigits (l : List Char) : ℕ :=
  l.foldl (fun a c => 10 * a + (c.toNat - 48)) 0

/-- A sample planar metric (squared Euclidean distance) standing in for the
geometry library's distance in concrete instantiations. -/
def sqDist : DistFn := fun a b =>
  (a.x - b.x) * (a.x - b.x) + (a.y - b.y) * (a.y - b.y)

/-- Concrete stations used to instantiate the assignment theorems. -/
def wStations : List Station :=
  [{ station_id := "S1_1", precinct := 1, geometry := ⟨0, 0⟩, cluster_size := 1 },
   { station_id := "S1_2", precinct := 1, geometry := ⟨5, 5⟩, cluster_size := 1 }]

/-- A concrete zone used to instantiate the assignment theorems. -/
def wZone1 : Zone := { zip := "77001", area_sq_km := 2, centroid := ⟨1, 1⟩ }

/-- A second concrete zone used to instantiate the assignment theorems. -/
def wZone2 : Zone := { zip := "77002", area_sq_km := 3, centroid := ⟨4, 4⟩ }

/-- Concrete zones used to instantiate the assignment theorems. -/
def wZones : List Zone := [wZone1, wZone2]

/-- A precinct whose polygon accepts every candidate, for concrete runs of
the point generator. -/
def wPrecinct : Precinct := { pct_num := 1, area_sq_km := 1, contains := fun _ => true }

/-- Concrete generator input: one precinct with ten candidate draws. -/
def wPcs : List (Precinct × List Pt) := [(wPrecinct, List.replicate 10 ⟨0, 0⟩)]

/-- Generator input refuting the rounded allocation formula: with a budget of
100 and areas 7.9 and 92.1, the first precinct's proportional share is 7.9,
which `int()` truncates to 7 while rounding would give 8. -/
def cexPcs : List (Precinct × List Pt) :=
  [({ pct_num := 1, area_sq_km := 79 / 10, contains := fun _ => true },
    List.replicate 7 ⟨0, 0⟩),
   ({ pct_num := 2, area_sq_km := 921 / 10, contains := fun _ => true },
    List.replicate 92 ⟨0, 0⟩)]

/-- A stand-in clustering routine returning the requested number of centers,
for concrete instantiations of the station-placement theorems. -/
def wKmeans : ℕ → List Pt → List Pt × List ℕ :=
  fun k pts => (List.replicate k ⟨0, 0⟩, List.replicate pts.length 0)

/-- A single demand point in precinct 1, for concrete station placement. -/
def wPoints : List DemandPoint :=
  [{ geometry := ⟨0, 0⟩, precinct := 1, patrol_id := "P1_1" }]

/-- The single station produced by the concrete one-precinct run. -/
def wStation1 : Station :=
  { station_id := "S1_1", precinct := 1, geometry := ⟨0, 0⟩, cluster_size := 1 }

/-- Concrete assigned zones for the equity-metric theorems. -/
def wZonesA : List ZoneA :=
  [{ zip := "77001", area_sq_km := 2, centroid := ⟨1, 1⟩,
     nearest_station := some "S1_1", distance_km := (5 : ℚ), precinct := some 1 },
   { zip := "77002", area_sq_km := 3, centroid := ⟨4, 4⟩,
     nearest_station := some "S1_2", distance_km := (7 : ℚ), precinct := some 1 }]

/-! ### The nearest-station scan -/

/-- The strict-minimum fold of `analyze_service_coverage`, started at a
running best station, selects `pickNearest`. -/
theorem foldl_pick (dist : DistFn) (c : Pt) (l : List Station) :
    ∀ b : Station,
      l.foldl
        (fun acc st =>
          if (dist c st.geometry : WithTop ℚ) < acc.1 then
            ((dist c st.geometry : WithTop ℚ), some st.station_id)
          else acc)
        ((dist c b.geometry : WithTop ℚ), some b.station_id)
      = ((dist c (pickNearest dist c b l).geometry : WithTop ℚ),
         some (pickNearest dist c b l).station_id) := by
  induction l with
  | nil => intro b; simp [pickNearest]
  | cons t ts ih =>
    intro b
    by_cases h : dist c t.geometry < dist c b.geometry
    · have hp : pickNearest dist c b (t :: ts) = pickNearest dist c t ts := by
        simp [pickNearest, h]
      rw [hp, List.foldl_cons]
      have hc : ((dist c t.geometry : WithTop ℚ), some t.station_id)
          = (if (dist c t.geometry : WithTop ℚ) < ((dist c b.geometry : WithTop ℚ), some b.station_id).1 then
              ((dist c t.geometry : WithTop ℚ), some t.station_id)
             else ((dist c b.geometry : WithTop ℚ), some b.station_id)) := by
        rw [if_pos (show (dist c t.geometry : WithTop ℚ) < (dist c b.geometry : WithTop ℚ) from
          WithTop.coe_lt_coe.mpr h)]
      rw [← hc]
      exact ih t
    · have hp : pickNearest dist c b (t :: ts) = pickNearest dist c b ts := by
        simp [pickNearest, h]
      rw [hp, List.foldl_cons]
      have hc : ((dist c b.geometry : WithTop ℚ), some b.station_id)
          = (if (dist c t.geometry : WithTop ℚ) < ((dist c b.geometry : WithTop ℚ), some b.station_id).1 then
              ((dist c t.geometry : WithTop ℚ), some t.station_id)
             else ((dist c b.geometry : WithTop ℚ), some b.station_id)) := by
        rw [if_neg (show ¬ (dist c t.geometry : WithTop ℚ) < (dist c b.geometry : WithTop ℚ) from
          fun hc => h (WithTop.coe_lt_coe.mp hc))]
      rw [← hc]
      exact ih b

/-- `nearestStation` on a non-empty station list is `pickNearest` from the
head: minimal meter distance and the id of the selected station. -/
theorem nearestStation_cons (dist : DistFn) (c : Pt) (b : Station) (l : List Station) :
    nearestStation dist (b :: l) c =
      ((dist c (pickNearest dist c b l).geometry : WithTop ℚ),
       some (pickNearest dist c b l).station_id) := by
  unfold nearestStation
  rw [List.foldl_cons]
  have hc : (if (dist c b.geometry : WithTop ℚ) < ((⊤ : WithTop ℚ), (none : Option String)).1 then
              ((dist c b.geometry : WithTop ℚ), some b.station_id)
             else ((⊤ : WithTop ℚ), none))
      = ((dist c b.geometry : WithTop ℚ), some b.station_id) := by
    rw [if_pos (WithTop.coe_lt_top _)]
  rw [hc]
  exact foldl_pick dist c l b

/-- `pickNearest` is the first station of the combined list attaining the
minimum distance: everything before it is strictly farther, everything in
the list is at least as far. -/
theorem pick_spec (dist : DistFn) (c : Pt) (l : List Station) :
    ∀ b : Station,
      ∃ pre post,
        b :: l = pre ++ pickNearest dist c b l :: post ∧
        (∀ t ∈ pre, dist c (pickNearest dist c b l).geometry < dist c t.geometry) ∧
        (∀ t ∈ b :: l, dist c (pickNearest dist c b l).geometry ≤ dist c t.geometry) := by
  induction l with
  | nil =>
    intro b
    exact ⟨[], [], by simp [pickNearest], by simp, by simp [pickNearest]⟩
  | cons t ts ih =>
    intro b
    by_cases h : dist c t.geometry < dist c b.geometry
    · have hp : pickNearest dist c b (t :: ts) = pickNearest dist c t ts := by
        simp [pickNearest, h]
      obtain ⟨pre, post, heq, hpre, hmin⟩ := ih t
      refine ⟨b :: pre, post, ?_, ?_, ?_⟩
      · rw [hp, List.cons_append, ← heq]
      · intro u hu
        rcases List.mem_cons.mp hu with hub | hup
        · rw [hp, hub]
          exact lt_of_le_of_lt (hmin t (List.mem_cons_self t ts)) h
        · rw [hp]; exact hpre u hup
      · intro u hu
        rcases List.mem_cons.mp hu with hub | hup
        · rw [hp, hub]
          exact le_of_lt (lt_of_le_of_lt (hmin t (List.mem_cons_self t ts)) h)
        · rw [hp]; exact hmin u hup
    · have hble : dist c b.geometry ≤ dist c t.geometry := not_lt.mp h
      have hp : pickNearest dist c b (t :: ts) = pickNearest dist c b ts := by
        simp [pickNearest, h]
      obtain ⟨pre, post, heq, hpre, hmin⟩ := ih b
      cases pre with
      | nil =>
        have hpb : pickNearest dist c b ts = b := by
          have := heq
          simp only [List.nil_append] at this
          exact (List.cons_eq_cons.mp this).1.symm
        have hpost : post = ts := by
          have := heq
          simp only [List.nil_append] at this
          exact ((List.cons_eq_cons.mp this).2).symm
        refine ⟨[], t :: ts, ?_, ?_, ?_⟩
        · rw [hp, hpb]; simp
        · intro u hu; simp at hu
        · intro u hu
          rw [hp, hpb]
          rcases List.mem_cons.mp hu with hub | hup
          · rw [hub]
          · rcases List.mem_cons.mp hup with hut | hus
            · rw [hut]; exact hble
            · exact (hpb ▸ hmin) u (List.mem_cons_of_mem b hus)
      | cons x pre2 =>
        have hx : b = x ∧ ts = pre2 ++ pickNearest dist c b ts :: post := by
          have := heq
          simp only [List.cons_append] at this
          exact List.cons_eq_cons.mp this
        have hltb : dist c (pickNearest dist c b ts).geometry < dist c b.geometry := by
          have hh := hpre x (List.mem_cons_self x pre2)
          rw [← hx.1] at hh
          exact hh
        refine ⟨b :: t :: pre2, post, ?_, ?_, ?_⟩
        · rw [hp]
          simp only [List.cons_append]
          rw [← hx.2]
        · intro u hu
          rw [hp]
          rcases List.mem_cons.mp hu with hub | hup
          · rw [hub]; exact hltb
          · rcases List.mem_cons.mp hup with hut | hus
            · rw [hut]
              exact lt_of_lt_of_le hltb hble
            · exact hpre u (List.mem_cons_of_mem x hus)
        · intro u hu
          rw [hp]
          rcases List.mem_cons.mp hu with hub | hup
          · rw [hub]; exact hmin b (List.mem_cons_self b ts)
          · rcases List.mem_cons.mp hup with hut | hus
            · rw [hut]
              exact le_trans (hmin b (List.mem_cons_self b ts)) hble
            · exact hmin u (List.mem_cons_of_mem b hus)

/-! ### Claims C1 and C10: nearest-facility assignment -/

/-- C1: for every zone, when the facility collection is non-empty, the
assignment records exactly one facility (a `some` station id), whose
kilometer distance is minimal over all facilities — no facility is strictly
closer — and which is the first facility in enumeration order attaining the
minimum: every station listed before it is strictly farther. -/
theorem nearest_assignment_minimal (dist : DistFn) (stations : List Station)
    (zipcodes : List Zone) (hs : stations ≠ []) :
    ∀ z ∈ zipcodes,
      assignZone dist stations z ∈ (analyze_service_coverage dist stations zipcodes).2 ∧
      ∃ pre st post,
        stations = pre ++ st :: post ∧
        (assignZone dist stations z).nearest_station = some st.station_id ∧
        (assignZone dist stations z).distance_km
          = ((dist z.centroid st.geometry / 1000 : ℚ) : WithTop ℚ) ∧
        (∀ t ∈ stations,
          ¬ (dist z.centroid t.geometry / 1000 < dist z.centroid st.geometry / 1000)) ∧
        (∀ t ∈ pre, dist z.centroid st.geometry < dist z.centroid t.geometry) := by
  intro z hz
  constructor
  · exact List.mem_map_of_mem _ hz
  · obtain ⟨b, l, rfl⟩ : ∃ b l, stations = b :: l := by
      cases stations with
      | nil => exact absurd rfl hs
      | cons b l => exact ⟨b, l, rfl⟩
    obtain ⟨pre, post, heq, hpre, hmin⟩ := pick_spec dist z.centroid l b
    refine ⟨pre, pickNearest dist z.centroid b l, post, heq, ?_, ?_, ?_, hpre⟩
    · simp [assignZone, nearestStation_cons]
    · simp [assignZone, nearestStation_cons, WithTop.map_coe]
    · intro t ht
      rw [not_lt]
      exact (div_le_div_iff_of_pos_right (by norm_num : (0:ℚ) < 1000)).mpr (hmin t ht)

/-- Witness for C1 at a concrete zone and two concrete stations. -/
theorem nearest_assignment_minimal_witness :
    assignZone sqDist wStations wZone1 ∈ (analyze_service_coverage sqDist wStations wZones).2 ∧
    ∃ pre st post,
      wStations = pre ++ st :: post ∧
      (assignZone sqDist wStations wZone1).nearest_station = some st.station_id ∧
      (assignZone sqDist wStations wZone1).distance_km
        = ((sqDist wZone1.centroid st.geometry / 1000 : ℚ) : WithTop ℚ) ∧
      (∀ t ∈ wStations,
        ¬ (sqDist wZone1.centroid t.geometry / 1000 < sqDist wZone1.centroid st.geometry / 1000)) ∧
      (∀ t ∈ pre, sqDist wZone1.centroid st.geometry < sqDist wZone1.centroid t.geometry) :=
  nearest_assignment_minimal sqDist wStations wZones (by simp [wStations]) wZone1
    (by simp [wZones])

/-- C10: with an empty facility collection the assignment completes without
error, recording no nearest station (`None`), an infinite distance, and an
undefined precinct for every zone. -/
theorem empty_station_assignment (dist : DistFn) (zipcodes : List Zone) :
    ∀ za ∈ (analyze_service_coverage dist [] zipcodes).2,
      za.nearest_station = none ∧ za.distance_km = ⊤ ∧ za.precinct = none := by
  intro za hza
  simp only [analyze_service_coverage, List.mem_map] at hza
  obtain ⟨z, _, rfl⟩ := hza
  refine ⟨?_, ?_, ?_⟩ <;> simp [assignZone, nearestStation]

/-- Witness for C10 at a concrete zone. -/
theorem empty_station_assignment_witness :
    (assignZone sqDist [] wZone1).nearest_station = none ∧
    (assignZone sqDist [] wZone1).distance_km = ⊤ ∧
    (assignZone sqDist [] wZone1).precinct = none :=
  empty_station_assignment sqDist [wZone1] (assignZone sqDist [] wZone1)
    (List.mem_map_of_mem _ (List.mem_cons_self _ _))

/-! ### Claim C5: service-area conservation -/

/-- Sum of an indicator over a station list with distinct ids containing the
chosen id picks out the single matching value. -/
theorem sum_indicator (sid : String) (a : ℚ) :
    ∀ l : List Station,
      (l.map (fun st => st.station_id)).Nodup →
      sid ∈ l.map (fun st => st.station_id) →
      (l.map (fun st => if sid = st.station_id then a else 0)).sum = a := by
  intro l
  induction l with
  | nil => intro _ hmem; simp at hmem
  | cons st l ih =>
    intro hnd hmem
    rw [List.map_cons] at hnd hmem
    have hnd2 := List.nodup_cons.mp hnd
    rw [List.map_cons, List.sum_cons]
    by_cases hb : sid = st.station_id
    · have hzero : (l.map (fun st' => if sid = st'.station_id then a else 0)).sum = 0 := by
        apply List.sum_eq_zero
        intro x hx
        obtain ⟨st', hst', rfl⟩ := List.mem_map.mp hx
        have hne : sid ≠ st'.station_id := by
          intro hcontra
          have hmm : sid ∈ l.map (fun s => s.station_id) := by
            rw [hcontra]
            exact List.mem_map_of_mem (fun s => s.station_id) hst'
          rw [hb] at hmm
          exact hnd2.1 hmm
        simp [hne]
      rw [if_pos hb, hzero, add_zero]
    · have hmem2 : sid ∈ l.map (fun st' => st'.station_id) := by
        rcases List.mem_cons.mp hmem with h1 | h2
        · exact absurd h1 hb
        · exact h2
      rw [if_neg hb, zero_add]
      exact ih hnd2.2 hmem2

/-- Grouping the zone areas by assigned station id and summing the groups
recovers the total zone area, provided station ids are distinct and every
zone is assigned to a listed station. -/
theorem sum_service (stations : List Station)
    (hnd : (stations.map (fun st => st.station_id)).Nodup) :
    ∀ zs : List ZoneA,
      (∀ z ∈ zs, ∃ st ∈ stations, z.nearest_station = some st.station_id) →
      (stations.map (fun st =>
        ((zs.filter (fun z => z.nearest_station = some st.station_id)).map
          (fun z => z.area_sq_km)).sum)).sum
      = (zs.map (fun z => z.area_sq_km)).sum := by
  intro zs
  induction zs with
  | nil => intro _; simp
  | cons z zs ih =>
    intro h
    obtain ⟨st0, hst0, hnz⟩ := h z (List.mem_cons_self z zs)
    have hrest : ∀ z' ∈ zs, ∃ st ∈ stations, z'.nearest_station = some st.station_id :=
      fun z' hz' => h z' (List.mem_cons_of_mem _ hz')
    have hsplit : ∀ st ∈ stations,
        (((z :: zs).filter (fun z' => z'.nearest_station = some st.station_id)).map
          (fun z' => z'.area_sq_km)).sum
        = (if z.nearest_station = some st.station_id then z.area_sq_km else 0)
          + ((zs.filter (fun z' => z'.nearest_station = some st.station_id)).map
              (fun z' => z'.area_sq_km)).sum := by
      intro st _
      by_cases hb : z.nearest_station = some st.station_id
      · simp [List.filter_cons, hb]
      · simp [List.filter_cons, hb]
    rw [List.map_congr_left hsplit, List.sum_map_add, ih hrest]
    have hind : (stations.map (fun st =>
        if z.nearest_station = some st.station_id then z.area_sq_km else 0)).sum
        = z.area_sq_km := by
      have hcond : ∀ st ∈ stations,
          (if z.nearest_station = some st.station_id then z.area_sq_km else 0)
          = (if st0.station_id = st.station_id then z.area_sq_km else 0) := by
        intro st _
        rw [hnz]
        by_cases hb : st0.station_id = st.station_id
        · simp [hb]
        · simp [hb]
      rw [List.map_congr_left hcond]
      exact sum_indicator st0.station_id z.area_sq_km stations hnd
        (List.mem_map_of_mem (fun s => s.station_id) hst0)
    rw [hind]
    simp

/-- C5: with at least one facility (and distinct facility ids) the sum of
`service_area_sq_km` over the facilities returned by the coverage analysis
equals the sum of `area_sq_km` over all zones. -/
theorem service_area_conservation (dist : DistFn) (stations : List Station)
    (zipcodes : List Zone) (hne : stations ≠ [])
    (hnd : (stations.map (fun st => st.station_id)).Nodup) :
    (((analyze_service_coverage dist stations zipcodes).1).map
      (fun s => s.service_area_sq_km)).sum
    = (zipcodes.map (fun z => z.area_sq_km)).sum := by
  have hassigned : ∀ z ∈ zipcodes.map (assignZone dist stations),
      ∃ st ∈ stations, z.nearest_station = some st.station_id := by
    intro za hza
    obtain ⟨z, hz, rfl⟩ := List.mem_map.mp hza
    obtain ⟨b, l, rfl⟩ : ∃ b l, stations = b :: l := by
      cases stations with
      | nil => exact absurd rfl hne
      | cons b l => exact ⟨b, l, rfl⟩
    refine ⟨pickNearest dist z.centroid b l, ?_, ?_⟩
    · obtain ⟨pre, post, heq, _, _⟩ := pick_spec dist z.centroid l b
      rw [heq]
      exact List.mem_append_right _ (List.mem_cons_self _ _)
    · simp [assignZone, nearestStation_cons]
  have harea : ((zipcodes.map (assignZone dist stations)).map
      (fun z => z.area_sq_km)).sum = (zipcodes.map (fun z => z.area_sq_km)).sum := by
    rw [List.map_map]
    rfl
  calc (((analyze_service_coverage dist stations zipcodes).1).map
      (fun s => s.service_area_sq_km)).sum
      = (stations.map (fun st =>
          (((zipcodes.map (assignZone dist stations)).filter
            (fun z => z.nearest_station = some st.station_id)).map
            (fun z => z.area_sq_km)).sum)).sum := by
        show ((stations.map _).map _).sum = _
        rw [List.map_map]
        rfl
    _ = ((zipcodes.map (assignZone dist stations)).map (fun z => z.area_sq_km)).sum :=
        sum_service stations hnd _ hassigned
    _ = (zipcodes.map (fun z => z.area_sq_km)).sum := harea

/-- Witness for C5 at two concrete stations and two concrete zones. -/
theorem service_area_conservation_witness :
    (((analyze_service_coverage sqDist wStations wZones).1).map
      (fun s => s.service_area_sq_km)).sum
    = (wZones.map (fun z => z.area_sq_km)).sum :=
  service_area_conservation sqDist wStations wZones
    (by simp [wStations]) (by simp [wStations])

/-! ### Claims C2 and C3: synthetic point generation -/

/-- The rejection-sampling loop, when it completes, returns exactly the
quota (past the accumulator) and only accepted in-polygon points of the
sampled precinct. -/
theorem samplePoints_spec (P : Precinct) (q : ℕ) :
    ∀ (cands : List Pt) (acc out : List DemandPoint),
      samplePoints P q acc cands = some out →
      out.length = max acc.length q ∧
      ∀ d ∈ out, d ∈ acc ∨ (P.contains d.geometry = true ∧ d.precinct = P.pct_num) := by
  intro cands
  induction cands with
  | nil =>
    intro acc out h
    rw [samplePoints] at h
    split at h
    · injection h with h2
      subst h2
      exact ⟨(Nat.max_eq_left (by assumption)).symm, fun d hd => Or.inl hd⟩
    · exact Option.noConfusion h
  | cons c rest ih =>
    intro acc out h
    rw [samplePoints] at h
    split at h
    · injection h with h2
      subst h2
      exact ⟨(Nat.max_eq_left (by assumption)).symm, fun d hd => Or.inl hd⟩
    · rename_i hq
      have hlt : acc.length < q := Nat.not_le.mp hq
      by_cases hc : P.contains c
      · rw [if_pos hc] at h
        obtain ⟨hlen, hmem⟩ := ih _ out h
        constructor
        · rw [hlen, List.length_append, List.length_singleton,
            Nat.max_eq_right (Nat.succ_le_of_lt hlt),
            Nat.max_eq_right (Nat.le_of_lt hlt)]
        · intro d hd
          rcases hmem d hd with hin | hprop
          · rcases List.mem_append.mp hin with hin2 | hin1
            · exact Or.inl hin2
            · rw [List.mem_singleton] at hin1
              subst hin1
              exact Or.inr ⟨by simpa using hc, rfl⟩
          · exact Or.inr hprop
      · rw [if_neg hc] at h
        exact ih acc out h

/-- Every point produced by the generation loop carries the precinct number
of one of the supplied precincts. -/
theorem generateAux_mem (budget : ℤ) (total : ℚ) :
    ∀ (pcs : List (Precinct × List Pt)) (pts : List DemandPoint),
      generateAux budget total pcs = some pts →
      ∀ d ∈ pts, ∃ pc ∈ pcs, d.precinct = pc.1.pct_num := by
  intro pcs
  induction pcs with
  | nil =>
    intro pts h d hd
    rw [generateAux] at h
    injection h with h2
    subst h2
    simp at hd
  | cons pc0 rest ih =>
    intro pts h d hd
    rw [generateAux] at h
    obtain ⟨out0, hs, h2⟩ := Option.bind_eq_some.mp h
    obtain ⟨more, hg, h3⟩ := Option.bind_eq_some.mp h2
    injection h3 with h4
    subst h4
    rcases List.mem_append.mp hd with h5 | h5
    · rcases (samplePoints_spec pc0.1 _ pc0.2 [] out0 hs).2 d h5 with h6 | h6
      · simp at h6
      · exact ⟨pc0, List.mem_cons_self pc0 rest, h6.2⟩
    · obtain ⟨pc, hpc, hdp⟩ := ih more hg d h5
      exact ⟨pc, List.mem_cons_of_mem pc0 hpc, hdp⟩

/-- When the generator succeeds and precinct numbers are distinct, the points
of each precinct are exactly its sampling-loop output. -/
theorem generateAux_filter (budget : ℤ) (total : ℚ) :
    ∀ (pcs : List (Precinct × List Pt)) (pts : List DemandPoint),
      generateAux budget total pcs = some pts →
      (pcs.map (fun pc => pc.1.pct_num)).Nodup →
      ∀ pc ∈ pcs, ∃ out,
        samplePoints pc.1 (precinctQuota budget pc.1.area_sq_km total) [] pc.2 = some out ∧
        pts.filter (fun d => d.precinct = pc.1.pct_num) = out := by
  intro pcs
  induction pcs with
  | nil => intro pts _ _ pc hpc; simp at hpc
  | cons pc0 rest ih =>
    intro pts h hnd pc hpc
    rw [generateAux] at h
    obtain ⟨out0, hs, h2⟩ := Option.bind_eq_some.mp h
    obtain ⟨more, hg, h3⟩ := Option.bind_eq_some.mp h2
    injection h3 with h4
    subst h4
    rw [List.map_cons] at hnd
    have hnd2 := List.nodup_cons.mp hnd
    have hout0 : ∀ d ∈ out0, d.precinct = pc0.1.pct_num := by
      intro d hd
      rcases (samplePoints_spec pc0.1 _ pc0.2 [] out0 hs).2 d hd with h6 | h6
      · simp at h6
      · exact h6.2
    rcases List.mem_cons.mp hpc with hpc0 | hpcr
    · subst hpc0
      refine ⟨out0, hs, ?_⟩
      rw [List.filter_append]
      have hf0 : out0.filter (fun d => d.precinct = pc.1.pct_num) = out0 :=
        List.filter_eq_self.mpr (fun d hd => by simp [hout0 d hd])
      have hfm : more.filter (fun d => d.precinct = pc.1.pct_num) = [] := by
        rw [List.filter_eq_nil_iff]
        intro d hd
        obtain ⟨pc2, hpc2, hdp⟩ := generateAux_mem budget total rest more hg d hd
        have hne : pc2.1.pct_num ≠ pc.1.pct_num := by
          intro hcontra
          apply hnd2.1
          rw [← hcontra]
          exact List.mem_map_of_mem (fun x => x.1.pct_num) hpc2
        simp [hdp, hne]
      rw [hf0, hfm, List.append_nil]
    · obtain ⟨out, hsampout, hfilter⟩ := ih more hg hnd2.2 pc hpcr
      refine ⟨out, hsampout, ?_⟩
      rw [List.filter_append, hfilter]
      have hf0 : out0.filter (fun d => d.precinct = pc.1.pct_num) = [] := by
        rw [List.filter_eq_nil_iff]
        intro d hd
        have hne : pc.1.pct_num ≠ pc0.1.pct_num := by
          intro hcontra
          apply hnd2.1
          rw [← hcontra]
          exact List.mem_map_of_mem (fun x => x.1.pct_num) hpcr
        simp [hout0 d hd, hne.symm]
      rw [hf0, List.nil_append]

/-- C2 (amended): for every precinct, when generation completes, the number
of demand points produced for that precinct equals
`max(5, int(budget * area / total_area))` — `int()` truncation toward zero,
not rounding to nearest. -/
theorem point_allocation_truncated (budget : ℤ) (pcs : List (Precinct × List Pt))
    (pts : List DemandPoint)
    (hgen : generate_patrol_points budget pcs = some pts)
    (hnd : (pcs.map (fun pc => pc.1.pct_num)).Nodup) :
    ∀ pc ∈ pcs,
      (pts.filter (fun d => d.precinct = pc.1.pct_num)).length
      = (max 5 (pyInt ((budget : ℚ) *
          (pc.1.area_sq_km / (pcs.map (fun pc2 => pc2.1.area_sq_km)).sum)))).toNat := by
  intro pc hpc
  have hgen2 : generateAux budget ((pcs.map (fun pc2 => pc2.1.area_sq_km)).sum) pcs
      = some pts := hgen
  obtain ⟨out, hs, hfilter⟩ := generateAux_filter budget
    ((pcs.map (fun pc2 => pc2.1.area_sq_km)).sum) pcs pts hgen2 hnd pc hpc
  rw [hfilter]
  have hlen := (samplePoints_spec pc.1 _ pc.2 [] out hs).1
  rw [hlen]
  simp [precinctQuota]

/-- Counterexample for C2 as stated: with a budget of 100 and precinct areas
7.9 and 92.1 (total 100), the code generates 7 points for the first precinct
(`int(7.9)`), while the claimed formula `max(5, round(7.9))` gives 8. -/
theorem point_allocation_round_counterexample :
    (generate_patrol_points 100 cexPcs).map
        (fun pts => (pts.filter (fun d => d.precinct = 1)).length) = some 7 ∧
    (max 5 (round ((100 : ℚ) *
        ((79 / 10 : ℚ) / (cexPcs.map (fun pc => pc.1.area_sq_km)).sum)))).toNat = 8 ∧
    (7 : ℕ) ≠ 8 := by
  refine ⟨?_, ?_, by decide⟩
  · set_option maxRecDepth 100000 in with_unfolding_all decide
  · with_unfolding_all decide

/-- Witness for C2 (amended) on a one-precinct input with ten candidates. -/
theorem point_allocation_truncated_witness :
    ∃ pts, generate_patrol_points 10 wPcs = some pts ∧
      (pts.filter (fun d => d.precinct = wPrecinct.pct_num)).length
      = (max 5 (pyInt ((10 : ℚ) *
          (wPrecinct.area_sq_km / (wPcs.map (fun pc2 => pc2.1.area_sq_km)).sum)))).toNat := by
  have hsome : (generate_patrol_points 10 wPcs).isSome = true := by
    set_option maxRecDepth 100000 in with_unfolding_all decide
  obtain ⟨pts, hpts⟩ := Option.isSome_iff_exists.mp hsome
  exact ⟨pts, hpts,
    point_allocation_truncated 10 wPcs pts hpts (by simp [wPcs])
      (wPrecinct, List.replicate 10 ⟨0, 0⟩) (by simp [wPcs])⟩

/-- C3: for every precinct, when generation completes, at least 5 demand
points are produced for it, and every produced point passes the precinct
polygon's containment test. -/
theorem points_quota_and_containment (budget : ℤ) (pcs : List (Precinct × List Pt))
    (pts : List DemandPoint)
    (hgen : generate_patrol_points budget pcs = some pts)
    (hnd : (pcs.map (fun pc => pc.1.pct_num)).Nodup) :
    ∀ pc ∈ pcs,
      5 ≤ (pts.filter (fun d => d.precinct = pc.1.pct_num)).length ∧
      ∀ d ∈ pts.filter (fun d => d.precinct = pc.1.pct_num),
        pc.1.contains d.geometry = true := by
  intro pc hpc
  have hgen2 : generateAux budget ((pcs.map (fun pc2 => pc2.1.area_sq_km)).sum) pcs
      = some pts := hgen
  obtain ⟨out, hs, hfilter⟩ := generateAux_filter budget
    ((pcs.map (fun pc2 => pc2.1.area_sq_km)).sum) pcs pts hgen2 hnd pc hpc
  have hspec := samplePoints_spec pc.1 _ pc.2 [] out hs
  constructor
  · rw [hfilter, hspec.1]
    simp only [List.length_nil, Nat.zero_max, precinctQuota]
    have h5 := Int.toNat_le_toNat (le_max_left (5 : ℤ)
      (pyInt ((budget : ℚ) *
        (pc.1.area_sq_km / (pcs.map (fun pc2 => pc2.1.area_sq_km)).sum))))
    exact h5
  · intro d hd
    rw [hfilter] at hd
    rcases hspec.2 d hd with h0 | hp
    · simp at h0
    · exact hp.1

/-- Witness for C3 on a one-precinct input with ten candidates. -/
theorem points_quota_and_containment_witness :
    ∃ pts, generate_patrol_points 10 wPcs = some pts ∧
      5 ≤ (pts.filter (fun d => d.precinct = wPrecinct.pct_num)).length := by
  have hsome : (generate_patrol_points 10 wPcs).isSome = true := by
    set_option maxRecDepth 100000 in with_unfolding_all decide
  obtain ⟨pts, hpts⟩ := Option.isSome_iff_exists.mp hsome
  exact ⟨pts, hpts,
    (points_quota_and_containment 10 wPcs pts hpts (by simp [wPcs])
      (wPrecinct, List.replicate 10 ⟨0, 0⟩) (by simp [wPcs])).1⟩

/-! ### Claim C4: facility counts -/

/-- Membership is preserved by the first-occurrence deduplication. -/
theorem mem_pdUnique (l : List ℤ) : ∀ a : ℤ, a ∈ pdUnique l ↔ a ∈ l := by
  induction l using pdUnique.induct with
  | case1 => intro a; rw [pdUnique]
  | case2 x xs ih =>
    intro a
    rw [pdUnique]
    constructor
    · intro h
      rcases List.mem_cons.mp h with rfl | h2
      · exact List.mem_cons_self _ _
      · exact List.mem_cons_of_mem x (List.mem_filter.mp ((ih a).mp h2)).1
    · intro h
      rcases List.mem_cons.mp h with rfl | h2
      · exact List.mem_cons_self _ _
      · by_cases hax : a = x
        · rw [hax]; exact List.mem_cons_self _ _
        · exact List.mem_cons_of_mem x
            ((ih a).mpr (List.mem_filter.mpr ⟨h2, by simp [hax]⟩))

/-- The deduplicated precinct list has no duplicates. -/
theorem pdUnique_nodup : ∀ l : List ℤ, (pdUnique l).Nodup := by
  intro l
  induction l using pdUnique.induct with
  | case1 => rw [pdUnique]; exact List.nodup_nil
  | case2 x xs ih =>
    rw [pdUnique]
    refine List.nodup_cons.mpr ⟨?_, ih⟩
    intro hmem
    have := (mem_pdUnique _ x).mp hmem
    simp at this

/-- Every station emitted for a precinct carries that precinct's number. -/
theorem stationBlock_precinct (kmeans : ℕ → List Pt → List Pt × List ℕ)
    (points : List DemandPoint) (k : ℕ) (p : ℤ) :
    ∀ s ∈ stationBlock kmeans points k p, s.precinct = p := by
  intro s hs
  by_cases hc : (points.filter (fun d => d.precinct = p)).length < k
  · simp [stationBlock, hc] at hs
  · simp only [stationBlock, if_neg hc, List.mem_map] at hs
    obtain ⟨ic, _, rfl⟩ := hs
    rfl

/-- An eligible precinct's block holds exactly `k` stations, one per cluster
center. -/
theorem stationBlock_length (kmeans : ℕ → List Pt → List Pt × List ℕ)
    (points : List DemandPoint) (k : ℕ) (p : ℤ)
    (hk : ((kmeans k ((points.filter (fun d => d.precinct = p)).map
        (fun d => d.geometry))).1).length = k)
    (he : ¬ (points.filter (fun d => d.precinct = p)).length < k) :
    (stationBlock kmeans points k p).length = k := by
  simp [stationBlock, he, hk]

/-- A precinct with fewer points than requested stations is skipped. -/
theorem stationBlock_skip (kmeans : ℕ → List Pt → List Pt × List ℕ)
    (points : List DemandPoint) (k : ℕ) (p : ℤ)
    (he : (points.filter (fun d => d.precinct = p)).length < k) :
    stationBlock kmeans points k p = [] := by
  simp [stationBlock, he]

/-- Indicator sum over a duplicate-free integer list containing the chosen
value. -/
theorem sum_indicator_nat (p : ℤ) (n : ℕ) :
    ∀ l : List ℤ, l.Nodup → p ∈ l →
      (l.map (fun q => if q = p then n else 0)).sum = n := by
  intro l
  induction l with
  | nil => intro _ hp; simp at hp
  | cons q l ih =>
    intro hnd hp
    have hnd2 := List.nodup_cons.mp hnd
    rw [List.map_cons, List.sum_cons]
    rcases List.mem_cons.mp hp with rfl | hpl
    · have hzero : (l.map (fun q2 => if q2 = p then n else 0)).sum = 0 := by
        apply List.sum_eq_zero
        intro x hx
        obtain ⟨q2, hq2, rfl⟩ := List.mem_map.mp hx
        have : q2 ≠ p := fun hcontra => hnd2.1 (hcontra ▸ hq2)
        simp [this]
      rw [if_pos rfl, hzero, add_zero]
    · have hqp : q ≠ p := fun hcontra => hnd2.1 (hcontra ▸ hpl)
      rw [if_neg hqp, zero_add]
      exact ih hnd2.2 hpl

/-- Sum of a constant over the matching entries counts the filter. -/
theorem sum_if_count (c : ℤ → Prop) [DecidablePred c] (k : ℕ) :
    ∀ l : List ℤ,
      (l.map (fun q => if c q then k else 0)).sum
        = k * (l.filter (fun q => c q)).length := by
  intro l
  induction l with
  | nil => simp
  | cons q l ih =>
    rw [List.map_cons, List.sum_cons, List.filter_cons]
    by_cases hc : c q
    · simp only [hc, if_true, decide_eq_true_eq, List.length_cons, ih,
        if_pos hc, decide_eq_true hc]
      ring
    · rw [if_neg hc, ih]
      simp only [decide_eq_false hc, Bool.false_eq_true, if_false]
      ring

/-- C4: assuming the clustering library returns the requested number of
centers, every eligible precinct (at least `k` points) owns exactly `k`
facilities, an ineligible precinct owns none, and the total facility count is
`k` times the number of eligible (unique) precincts. -/
theorem facility_counts (kmeans : ℕ → List Pt → List Pt × List ℕ)
    (hk : ∀ (n : ℕ) (pts : List Pt), ((kmeans n pts).1).length = n)
    (points : List DemandPoint) (pct_nums : List ℤ) (k : ℕ) :
    (∀ p ∈ pct_nums, k ≤ (points.filter (fun d => d.precinct = p)).length →
      ((optimize_patrol_stations kmeans points pct_nums k).filter
        (fun s => s.precinct = p)).length = k) ∧
    (∀ p : ℤ, (points.filter (fun d => d.precinct = p)).length < k →
      ((optimize_patrol_stations kmeans points pct_nums k).filter
        (fun s => s.precinct = p)).length = 0) ∧
    (optimize_patrol_stations kmeans points pct_nums k).length
      = k * ((pdUnique pct_nums).filter
          (fun p => k ≤ (points.filter (fun d => d.precinct = p)).length)).length := by
  refine ⟨?_, ?_, ?_⟩
  · intro p hp hle
    rw [optimize_patrol_stations, List.filter_flatMap, List.length_flatMap]
    have hcongr : ∀ q ∈ pdUnique pct_nums,
        (List.length ∘ fun a => List.filter (fun s => s.precinct = p)
          (stationBlock kmeans points k a)) q
        = if q = p then k else 0 := by
      intro q _
      by_cases hqp : q = p
      · subst hqp
        have hself : (stationBlock kmeans points k q).filter
            (fun s => s.precinct = q) = stationBlock kmeans points k q :=
          List.filter_eq_self.mpr
            (fun s hs => by simp [stationBlock_precinct kmeans points k q s hs])
        simp only [Function.comp, hself, if_pos rfl]
        exact stationBlock_length kmeans points k q (hk _ _) (Nat.not_lt.mpr hle)
      · have hnil : (stationBlock kmeans points k q).filter
            (fun s => s.precinct = p) = [] := by
          rw [List.filter_eq_nil_iff]
          intro s hs
          simp [stationBlock_precinct kmeans points k q s hs, hqp]
        simp [Function.comp, hnil, hqp]
    rw [List.map_congr_left hcongr]
    exact sum_indicator_nat p k (pdUnique pct_nums) (pdUnique_nodup pct_nums)
      ((mem_pdUnique pct_nums p).mpr hp)
  · intro p hlt
    rw [optimize_patrol_stations, List.filter_flatMap, List.length_flatMap]
    apply List.sum_eq_zero
    intro x hx
    obtain ⟨q, _, rfl⟩ := List.mem_map.mp hx
    by_cases hqp : q = p
    · subst hqp
      simp [Function.comp, stationBlock_skip kmeans points k q hlt]
    · have hnil : (stationBlock kmeans points k q).filter
          (fun s => s.precinct = p) = [] := by
        rw [List.filter_eq_nil_iff]
        intro s hs
        simp [stationBlock_precinct kmeans points k q s hs, hqp]
      simp [Function.comp, hnil]
  · rw [optimize_patrol_stations, List.length_flatMap]
    have hcongr : ∀ q ∈ pdUnique pct_nums,
        (List.length ∘ stationBlock kmeans points k) q
        = if k ≤ (points.filter (fun d => d.precinct = q)).length then k else 0 := by
      intro q _
      by_cases he : k ≤ (points.filter (fun d => d.precinct = q)).length
      · simp only [Function.comp, if_pos he]
        exact stationBlock_length kmeans points k q (hk _ _) (Nat.not_lt.mpr he)
      · simp only [Function.comp, if_neg he]
        simp [stationBlock_skip kmeans points k q (Nat.not_le.mp he)]
    rw [List.map_congr_left hcongr]
    exact sum_if_count (fun q => k ≤ (points.filter (fun d => d.precinct = q)).length)
      k (pdUnique pct_nums)

/-- Witness for C4 at a concrete one-point, one-precinct input. -/
theorem facility_counts_witness :
    ((optimize_patrol_stations wKmeans wPoints [1] 1).filter
      (fun s => s.precinct = 1)).length = 1 :=
  (facility_counts wKmeans (fun n pts => by simp [wKmeans]) wPoints [1] 1).1 1
    (by simp) (by with_unfolding_all decide)

/-! ### Claim C9: station identifiers -/

/-- The fueled core of `Nat.repr` agrees with the reference digit list when
given enough fuel. -/
theorem toDigitsCore_eq_specDigits :
    ∀ (fuel n : ℕ) (acc : List Char), n < fuel →
      Nat.toDigitsCore 10 fuel n acc = specDigits n ++ acc := by
  intro fuel
  induction fuel with
  | zero => intro n acc h; exact absurd h (Nat.not_lt_zero n)
  | succ f ih =>
    intro n acc h
    by_cases h0 : n / 10 = 0
    · simp only [Nat.toDigitsCore, h0, if_pos]
      rw [specDigits, dif_pos h0]
      simp
    · simp only [Nat.toDigitsCore, h0, if_neg, if_false]
      have hn0 : n ≠ 0 := by
        intro hh
        rw [hh] at h0
        simp at h0
      have hlt : n / 10 < f :=
        lt_of_lt_of_le (Nat.div_lt_self (Nat.pos_of_ne_zero hn0) (by norm_num))
          (Nat.lt_succ_iff.mp h)
      rw [ih (n / 10) (Nat.digitChar (n % 10) :: acc) hlt]
      conv_rhs => rw [specDigits, dif_neg h0]
      rw [List.append_assoc, List.singleton_append]

/-- Appending one digit multiplies the value by ten and adds the digit. -/
theorem valDigits_append_digit (l : List Char) (c : Char) :
    valDigits (l ++ [c]) = 10 * valDigits l + (c.toNat - 48) := by
  simp [valDigits, List.foldl_append]

/-- Decimal digit characters decode back to their value. -/
theorem digitChar_toNat : ∀ d : ℕ, d < 10 → (Nat.digitChar d).toNat = 48 + d := by
  decide

/-- The reference digit list decodes to the number it encodes. -/
theorem valDigits_specDigits : ∀ n : ℕ, valDigits (specDigits n) = n := by
  intro n
  induction n using Nat.strong_induction_on with
  | _ n ih =>
    have hd := digitChar_toNat (n % 10) (Nat.mod_lt n (by norm_num))
    by_cases h0 : n / 10 = 0
    · rw [specDigits, dif_pos h0]
      have hmod := Nat.div_add_mod n 10
      simp only [valDigits, List.foldl_cons, List.foldl_nil, hd]
      omega
    · rw [specDigits, dif_neg h0, valDigits_append_digit, hd]
      have hn0 : n ≠ 0 := by
        intro hh
        rw [hh] at h0
        simp at h0
      rw [ih (n / 10) (Nat.div_lt_self (Nat.pos_of_ne_zero hn0) (by norm_num))]
      have hmod := Nat.div_add_mod n 10
      omega

/-- Decimal representation of naturals is injective. -/
theorem natRepr_inj : ∀ m n : ℕ, Nat.repr m = Nat.repr n → m = n := by
  intro m n h
  have hdata : Nat.toDigits 10 m = Nat.toDigits 10 n := by
    have hd := congrArg String.data h
    simpa [Nat.repr, List.asString] using hd
  have hm : Nat.toDigits 10 m = specDigits m := by
    rw [Nat.toDigits, toDigitsCore_eq_specDigits (m + 1) m [] (Nat.lt_succ_self m),
      List.append_nil]
  have hn : Nat.toDigits 10 n = specDigits n := by
    rw [Nat.toDigits, toDigitsCore_eq_specDigits (n + 1) n [] (Nat.lt_succ_self n),
      List.append_nil]
  calc m = valDigits (specDigits m) := (valDigits_specDigits m).symm
    _ = valDigits (specDigits n) := by rw [← hm, ← hn, hdata]
    _ = n := valDigits_specDigits n

/-- Station-identifier strings with the same precinct prefix and distinct
1-based indices are distinct. -/
theorem station_id_inj (p : ℤ) : ∀ i j : ℕ,
    ("S" ++ Int.repr p ++ "_" ++ Nat.repr (i + 1) : String)
      = "S" ++ Int.repr p ++ "_" ++ Nat.repr (j + 1) → i = j := by
  intro i j h
  have hdata := congrArg String.data h
  rw [String.data_append, String.data_append] at hdata
  have hlist : (Nat.repr (i + 1)).data = (Nat.repr (j + 1)).data :=
    List.append_cancel_left hdata
  have hrepr : Nat.repr (i + 1) = Nat.repr (j + 1) := by
    cases hri : Nat.repr (i + 1) with
    | mk di =>
      cases hrj : Nat.repr (j + 1) with
      | mk dj =>
        rw [hri, hrj] at hlist
        exact congrArg String.mk hlist
  have := natRepr_inj (i + 1) (j + 1) hrepr
  omega

/-- The identifiers within one precinct's station block are distinct. -/
theorem stationBlock_ids_nodup (kmeans : ℕ → List Pt → List Pt × List ℕ)
    (points : List DemandPoint) (k : ℕ) (p : ℤ) :
    ((stationBlock kmeans points k p).map (fun s => s.station_id)).Nodup := by
  by_cases hc : (points.filter (fun d => d.precinct = p)).length < k
  · simp [stationBlock, hc]
  · simp only [stationBlock, if_neg hc, List.map_map]
    have hshape :
        ((kmeans k ((points.filter (fun d => d.precinct = p)).map
            (fun d => d.geometry))).1.enum.map
          ((fun s : Station => s.station_id) ∘ fun ic =>
            { station_id := "S" ++ Int.repr p ++ "_" ++ Nat.repr (ic.1 + 1)
              precinct := p
              geometry := ic.2
              cluster_size := (((kmeans k ((points.filter
                (fun d => d.precinct = p)).map (fun d => d.geometry))).2).filter
                  (fun l => l = ic.1)).length }))
        = ((kmeans k ((points.filter (fun d => d.precinct = p)).map
            (fun d => d.geometry))).1.enum.map
          ((fun i : ℕ => "S" ++ Int.repr p ++ "_" ++ Nat.repr (i + 1)) ∘ Prod.fst)) := by
      apply List.map_congr_left
      intro ic _
      rfl
    rw [hshape, ← List.map_map, List.enum_map_fst]
    exact List.Nodup.map (fun i j hij => station_id_inj p i j hij) (List.nodup_range _)

/-- On a duplicate-free precinct list, filtering the merged station list by
one precinct recovers exactly that precinct's block. -/
theorem optimize_filter_precinct (kmeans : ℕ → List Pt → List Pt × List ℕ)
    (points : List DemandPoint) (k : ℕ) :
    ∀ l : List ℤ, l.Nodup → ∀ p ∈ l,
      (l.flatMap (stationBlock kmeans points k)).filter (fun s => s.precinct = p)
        = stationBlock kmeans points k p := by
  intro l
  induction l with
  | nil => intro _ p hp; simp at hp
  | cons q l ih =>
    intro hnd p hp
    have hnd2 := List.nodup_cons.mp hnd
    rw [List.flatMap_cons, List.filter_append]
    rcases List.mem_cons.mp hp with rfl | hpl
    · have h1 : (stationBlock kmeans points k p).filter (fun s => s.precinct = p)
          = stationBlock kmeans points k p :=
        List.filter_eq_self.mpr
          (fun s hs => by simp [stationBlock_precinct kmeans points k p s hs])
      have h2 : (l.flatMap (stationBlock kmeans points k)).filter
          (fun s => s.precinct = p) = [] := by
        rw [List.filter_eq_nil_iff]
        intro s hs
        obtain ⟨q2, hq2, hsq2⟩ := List.mem_flatMap.mp hs
        have hq2ne : q2 ≠ p := fun hcontra => hnd2.1 (hcontra ▸ hq2)
        simp [stationBlock_precinct kmeans points k q2 s hsq2, hq2ne]
      rw [h1, h2, List.append_nil]
    · have hqp : q ≠ p := fun hcontra => hnd2.1 (hcontra ▸ hpl)
      have h1 : (stationBlock kmeans points k q).filter (fun s => s.precinct = p)
          = [] := by
        rw [List.filter_eq_nil_iff]
        intro s hs
        simp [stationBlock_precinct kmeans points k q s hs, hqp]
      rw [h1, List.nil_append]
      exact ih hnd2.2 p hpl

/-- C9 (amended): every facility's identifier is the string
`"S{precinct}_{index}"` with a 1-based index — an `S` prefix precedes the
precinct number — and these identifiers are unique within each precinct. -/
theorem station_id_format (kmeans : ℕ → List Pt → List Pt × List ℕ)
    (points : List DemandPoint) (pct_nums : List ℤ) (k : ℕ) :
    (∀ s ∈ optimize_patrol_stations kmeans points pct_nums k,
      ∃ i : ℕ, s.station_id = "S" ++ Int.repr s.precinct ++ "_" ++ Nat.repr (i + 1)) ∧
    ∀ p : ℤ, (((optimize_patrol_stations kmeans points pct_nums k).filter
        (fun s => s.precinct = p)).map (fun s => s.station_id)).Nodup := by
  constructor
  · intro s hs
    obtain ⟨q, _, hsq⟩ := List.mem_flatMap.mp hs
    by_cases hc : (points.filter (fun d => d.precinct = q)).length < k
    · rw [stationBlock_skip kmeans points k q hc] at hsq
      simp at hsq
    · simp only [stationBlock, if_neg hc, List.mem_map] at hsq
      obtain ⟨ic, _, rfl⟩ := hsq
      exact ⟨ic.1, rfl⟩
  · intro p
    by_cases hp : p ∈ pdUnique pct_nums
    · rw [optimize_patrol_stations,
        optimize_filter_precinct kmeans points k (pdUnique pct_nums)
          (pdUnique_nodup pct_nums) p hp]
      exact stationBlock_ids_nodup kmeans points k p
    · have hnil : ((pdUnique pct_nums).flatMap
          (stationBlock kmeans points k)).filter (fun s => s.precinct = p) = [] := by
        rw [List.filter_eq_nil_iff]
        intro s hs
        obtain ⟨q2, hq2, hsq2⟩ := List.mem_flatMap.mp hs
        have hq2ne : q2 ≠ p := fun hcontra => hp (hcontra ▸ hq2)
        simp [stationBlock_precinct kmeans points k q2 s hsq2, hq2ne]
      rw [optimize_patrol_stations, hnil]
      simp

/-- Witness for C9 (amended) at a concrete one-precinct run: the produced
identifier has the `S`-prefixed form, and the per-precinct identifiers are
duplicate-free. -/
theorem station_id_format_witness :
    (∃ i : ℕ, wStation1.station_id
      = "S" ++ Int.repr wStation1.precinct ++ "_" ++ Nat.repr (i + 1)) ∧
    (((optimize_patrol_stations wKmeans wPoints [1] 1).filter
        (fun s => s.precinct = 1)).map (fun s => s.station_id)).Nodup :=
  ⟨(station_id_format wKmeans wPoints [1] 1).1 wStation1 (by with_unfolding_all decide),
   (station_id_format wKmeans wPoints [1] 1).2 1⟩

/-- Counterexample for C9 as stated: the produced identifier is `"S1_1"`,
which is not the bare `"{precinct}_{index}"` string (`"1_1"` or `"1_0"`). -/
theorem station_id_prefix_counterexample :
    ((optimize_patrol_stations wKmeans wPoints [1] 1).map (fun s => s.station_id))
      = ["S1_1"] ∧
    ("S1_1" : String) ≠ "1_1" ∧ ("S1_1" : String) ≠ "1_0" := by
  refine ⟨?_, by decide, by decide⟩
  with_unfolding_all decide

/-! ### Claims C6, C7 and C8: equity metrics -/

/-- Counterexample for C6 as stated: the Gini value of the distances
[1, 2, 3, 4, 10] is exactly 2/5 = 0.40, which is not within 0.01 of the
claimed 0.36. -/
theorem gini_regression_counterexample :
    calculate_gini [1, 2, 3, 4, 10] = some (2 / 5) ∧
    ¬ |(2 / 5 : ℚ) - 36 / 100| < 1 / 100 := by
  constructor
  · with_unfolding_all decide
  · with_unfolding_all decide

/-- C6 (amended): the inequality index of the distance multiset
[1, 2, 3, 4, 10] km is exactly 2/5, i.e. 0.40. -/
theorem gini_regression_value :
    calculate_gini [1, 2, 3, 4, 10] = some (2 / 5) := by
  with_unfolding_all decide

/-- C7: the script has no degenerate-case guard.  On an empty distance list
(n = 0) or an all-zero list (sum = 0) the denominator `n * sum` is zero and
numpy's division produces NaN (modelled as `none`) — not the sentinel 0.0
the claim describes. -/
theorem gini_degenerate_nan :
    calculate_gini [] = none ∧
    calculate_gini [0, 0, 0] = none ∧
    (calculate_equity_metrics []).gini_coefficient = none ∧
    calculate_gini [] ≠ some 0 ∧
    calculate_gini [0, 0, 0] ≠ some 0 := by
  refine ⟨?_, ?_, ?_, ?_, ?_⟩ <;> with_unfolding_all decide

/-- C8: the coverage ratio returned by the equity computation is the summed
area of zones whose recorded distance is at most 10 km divided by the total
zone area; and for any threshold at least every recorded distance (the
infinite-threshold reading, all distances finite) the ratio is 1. -/
theorem coverage_ratio_spec (zipcodes : List ZoneA) :
    (calculate_equity_metrics zipcodes).coverage_ratio
      = ((zipcodes.filter (fun z => z.distance_km ≤ ((10 : ℚ) : WithTop ℚ))).map
          (fun z => z.area_sq_km)).sum
        / ((zipcodes.map (fun z => z.area_sq_km)).sum) ∧
    ∀ t : ℚ, (∀ z ∈ zipcodes, z.distance_km ≤ ((t : ℚ) : WithTop ℚ)) →
      (zipcodes.map (fun z => z.area_sq_km)).sum ≠ 0 →
      coverage_ratio zipcodes t = 1 := by
  constructor
  · rfl
  · intro t hall hne
    simp only [coverage_ratio]
    rw [List.filter_eq_self.mpr (fun z hz => by simp [hall z hz])]
    exact div_self hne

/-- Witness for C8 at two concrete assigned zones and threshold 10. -/
theorem coverage_ratio_spec_witness : coverage_ratio wZonesA 10 = 1 :=
  (coverage_ratio_spec wZonesA).2 10 (by with_unfolding_all decide)
    (by with_unfolding_all decide)
